import Mathlib

/-!
Verification of the `ginkou` sentence bank (src/main.rs) against its
natural-language specification.

The byte-level sentence segmenter (`Sentences::next`, `sentences`) is embedded
directly from the source.  Bytes are `Nat` (0..255), byte streams are
`List Nat`, and decoded sentences are lists of Unicode code points (`List Nat`).
The SQL files referenced by `include_str!` (sql/setup.sql, sql/add_sentence.sql,
sql/add_word.sql, sql/add_word_junction.sql, sql/all_word_sentences.sql,
sql/best_word_sentences.sql) are not part of the sources available here, so the
relational store is modelled from the specification, as flagged on each such
definition.
-/

namespace Ginkou

/-- The 3-byte UTF-8 encoding of the sentence delimiter `。`
(src/main.rs: `const DAKUTEN_BYTES: [u8; 3] = [227, 128, 130];`). -/
def DAKUTEN_BYTES : List Nat := [227, 128, 130]

/-- Indexing into `DAKUTEN_BYTES`; the default 256 is not a byte, so it can
never match (the source only indexes with 0, 1, 2 thanks to the loop guard). -/
def dak (i : Nat) : Nat := DAKUTEN_BYTES.getD i 256

/-- One step of the partial-match counter of `Sentences::next`:
`if byte == DAKUTEN_BYTES[match_index] { match_index += 1 } else { match_index = 0 }`. -/
def nextMi (mi b : Nat) : Nat := if b = dak mi then mi + 1 else 0

/-- The scanning loop of `Sentences::next` (`while match_index < 3`): starting
from match state `mi`, consume bytes, pushing each onto the buffer, until the
counter reaches 3 or the stream ends.  Returns the accumulated buffer and the
remaining stream. -/
def scanSentence : Nat → List Nat → List Nat × List Nat
  | _, [] => ([], [])
  | mi, b :: rest =>
    let mi' := nextMi mi b
    if mi' = 3 then ([b], rest)
    else
      let p := scanSentence mi' rest
      (b :: p.1, p.2)

theorem scanSentence_length (mi : Nat) (s : List Nat) :
    (scanSentence mi s).1.length + (scanSentence mi s).2.length = s.length := by
  induction s generalizing mi with
  | nil => simp [scanSentence]
  | cons b rest ih =>
    simp only [scanSentence]
    split
    · simp; omega
    · have := ih (nextMi mi b)
      simp only [List.length_cons]
      omega

theorem scanSentence_fst_length_pos (mi b : Nat) (rest : List Nat) :
    0 < (scanSentence mi (b :: rest)).1.length := by
  simp only [scanSentence]
  split <;> simp

/-- Rust `char::is_whitespace`: the Unicode `White_Space` property, on code
points. -/
def rustIsWhitespace (c : Nat) : Bool :=
  c = 0x09 || c = 0x0A || c = 0x0B || c = 0x0C || c = 0x0D || c = 0x20 ||
  c = 0x85 || c = 0xA0 || c = 0x1680 || (0x2000 ≤ c && c ≤ 0x200A) ||
  c = 0x2028 || c = 0x2029 || c = 0x202F || c = 0x205F || c = 0x3000

/-- Whether a byte is a UTF-8 continuation byte (0x80..0xBF). -/
def isCont (b : Nat) : Bool := 0x80 ≤ b && b ≤ 0xBF

/-- Read one continuation-style byte constrained to `lo..hi`, returning its
6 payload bits (its offset from 0x80) and the remaining bytes. -/
def readCont (lo hi : Nat) : List Nat → Option (Nat × List Nat)
  | [] => none
  | b :: r => if lo ≤ b && b ≤ hi then some (b - 0x80, r) else none

/-- Decode one UTF-8 scalar value from the front of a byte list, as Rust's
UTF-8 validation does: rejects overlong encodings (0xC0/0xC1, and the
restricted second-byte ranges after 0xE0 and 0xF0), surrogates (after 0xED)
and code points above 0x10FFFF (after 0xF4). -/
def utf8DecodeOne : List Nat → Option (Nat × List Nat)
  | [] => none
  | b :: rest =>
    if b ≤ 0x7F then some (b, rest)
    else if 0xC2 ≤ b && b ≤ 0xDF then
      (readCont 0x80 0xBF rest).map (fun p => ((b - 0xC0) * 0x40 + p.1, p.2))
    else if 0xE0 ≤ b && b ≤ 0xEF then
      (readCont (if b = 0xE0 then 0xA0 else 0x80)
          (if b = 0xED then 0x9F else 0xBF) rest).bind
        (fun p2 => (readCont 0x80 0xBF p2.2).map
          (fun p3 => ((b - 0xE0) * 0x1000 + p2.1 * 0x40 + p3.1, p3.2)))
    else if 0xF0 ≤ b && b ≤ 0xF4 then
      (readCont (if b = 0xF0 then 0x90 else 0x80)
          (if b = 0xF4 then 0x8F else 0xBF) rest).bind
        (fun p2 => (readCont 0x80 0xBF p2.2).bind
          (fun p3 => (readCont 0x80 0xBF p3.2).map
            (fun p4 => ((b - 0xF0) * 0x40000 + p2.1 * 0x1000 +
                        p3.1 * 0x40 + p4.1, p4.2))))
    else none

/-- Fueled decoding loop; each scalar consumes at least one byte, so fuel
equal to the byte count suffices (see `utf8Decode`). -/
def utf8DecodeFuel : Nat → List Nat → Option (List Nat)
  | 0, [] => some []
  | 0, _ :: _ => none
  | _ + 1, [] => some []
  | f + 1, b :: rest =>
    (utf8DecodeOne (b :: rest)).bind
      (fun p => (utf8DecodeFuel f p.2).map (fun t => p.1 :: t))

/-- Strict UTF-8 decoding of a byte list into code points, as performed by
Rust's `String::from_utf8`; `none` models `Err(FromUtf8Error)`. -/
def utf8Decode (l : List Nat) : Option (List Nat) := utf8DecodeFuel l.length l

/-- Post-processing of one emitted buffer in `Sentences::next`:
`String::from_utf8(buf)` then `x.replace(|x: char| x.is_whitespace(), "")`.
`Except.error ()` models a `SentenceError::Utf8` item. -/
def segItem (buf : List Nat) : Except Unit (List Nat) :=
  match utf8Decode buf with
  | none => Except.error ()
  | some cps => Except.ok (cps.filter (fun c => !rustIsWhitespace c))

/-- Fueled iteration of `Sentences::next`; one unit of fuel per emitted item
suffices since each item consumes at least one byte of the stream.  With the
fuel fixed to the stream length (see `runSentences`) this is exactly the
sequence of items the iterator yields. -/
def runSentencesFuel : Nat → List Nat → List (Except Unit (List Nat))
  | 0, _ => []
  | _ + 1, [] => []
  | f + 1, b :: rest =>
    let p := scanSentence 0 (b :: rest)
    segItem p.1 :: runSentencesFuel f p.2

/-- The whole sequence of items yielded by the iterator `sentences(reader)`:
repeatedly run the scanning loop; when the stream is exhausted with an empty
buffer the iterator returns `None` (the `done` flag), otherwise the buffer —
including a trailing partial one — is decoded, whitespace-stripped and
yielded. -/
def runSentences (s : List Nat) : List (Except Unit (List Nat)) :=
  runSentencesFuel s.length s

theorem runSentencesFuel_congr :
    ∀ f g : Nat, ∀ s : List Nat, s.length ≤ f → s.length ≤ g →
      runSentencesFuel f s = runSentencesFuel g s := by
  intro f
  induction f with
  | zero =>
    intro g s hf _
    have : s = [] := List.length_eq_zero.mp (Nat.le_zero.mp hf)
    subst this
    cases g <;> simp [runSentencesFuel]
  | succ f ih =>
    intro g s hf hg
    cases s with
    | nil => cases g <;> simp [runSentencesFuel]
    | cons b rest =>
      cases g with
      | zero => simp at hg
      | succ g =>
        simp only [runSentencesFuel]
        have h := scanSentence_length 0 (b :: rest)
        have h2 := scanSentence_fst_length_pos 0 b rest
        simp only [List.length_cons] at h hf hg
        have hlen : (scanSentence 0 (b :: rest)).2.length ≤ rest.length := by omega
        rw [ih g (scanSentence 0 (b :: rest)).2 (by omega) (by omega)]

theorem runSentences_nil : runSentences [] = [] := rfl

theorem runSentences_cons (b : Nat) (rest : List Nat) :
    runSentences (b :: rest) =
      segItem (scanSentence 0 (b :: rest)).1 ::
        runSentences (scanSentence 0 (b :: rest)).2 := by
  have h := scanSentence_length 0 (b :: rest)
  have h2 := scanSentence_fst_length_pos 0 b rest
  simp only [List.length_cons] at h
  show runSentencesFuel (rest.length + 1) (b :: rest) = _
  simp only [runSentencesFuel]
  rw [runSentencesFuel_congr rest.length (scanSentence 0 (b :: rest)).2.length
      (scanSentence 0 (b :: rest)).2 (by omega) (by omega)]
  rfl

/-! ## The sentence store

The SQLite-backed store.  The SQL statements are loaded by `include_str!` from
files not present in the available sources, so the relations and each
statement's effect are modelled from the specification (§3, §4.2, §6): a
`sentences` relation (surrogate integer id, text), a `words` relation (unique
texts) and a `membership` junction with a unique (word, sentence_id) pair. -/

/-- The store state: the three relations of the backing database, in insertion
order, plus the next surrogate sentence id. -/
structure Store where
  sentences : List (Nat × String)
  nextId : Nat
  words : List String
  memberships : List (String × Nat)
deriving DecidableEq

/-- The empty store produced by `create_tables` on a fresh database. -/
def emptyStore : Store := ⟨[], 0, [], []⟩

/-- The error kinds a store or pipeline operation can abort with:
`integrity` models a failed referential-integrity check in `add_word`,
`parse` models the `unwrap` panics of `consume_trimmed` on malformed
analyzer output, `noSchema` models the SQLite error raised by the first
statement run against a backing file lacking the expected schema. -/
inductive StoreErr
  | integrity
  | parse
  | noSchema
deriving DecidableEq

/-- Modelled from the spec: `add_sentence` (sql/add_sentence.sql is missing)
inserts a new sentence row and returns its assigned id
(`conn.last_insert_rowid()`); ids are assigned monotonically and the
operation is not idempotent (§4.2). -/
def add_sentence (store : Store) (text : String) : Store × Nat :=
  ({ store with
      sentences := store.sentences ++ [(store.nextId, text)]
      nextId := store.nextId + 1 },
   store.nextId)

/-- Modelled from the spec: `add_word` (sql/add_word.sql and
sql/add_word_junction.sql are missing) records that `word` occurs in sentence
`sid`: the word row and the junction row are inserted only if absent
(idempotent at the (word, sentence_id) granularity, §4.2), and the operation
fails if `sid` references no existing sentence (referential integrity, §4.2). -/
def add_word (store : Store) (word : String) (sid : Nat) : Except StoreErr Store :=
  if store.sentences.any (fun p => p.1 = sid) then
    Except.ok
      { store with
          words := if word ∈ store.words then store.words else store.words ++ [word]
          memberships :=
            if (word, sid) ∈ store.memberships then store.memberships
            else store.memberships ++ [(word, sid)] }
  else Except.error StoreErr.integrity

/-- Modelled from the spec: `matching_word` (sql/all_word_sentences.sql is
missing) returns every sentence text related to `word` through the junction,
in ascending sentence-length order, tie-broken by insertion order (§4.2).
The query itself cannot fail on a well-formed store. -/
def matching_word (store : Store) (word : String) : List String :=
  ((store.sentences.filter (fun p => (word, p.1) ∈ store.memberships)).map
      Prod.snd).mergeSort (fun a b => a.length ≤ b.length)

/-- Modelled from the spec: the capped query of `print_matching_words`
(sql/best_word_sentences.sql is missing) returns the shortest matches only,
at most 200 of them (§4.2). -/
def matching_word_capped (store : Store) (word : String) : List String :=
  (matching_word store word).take 200

/-! ## The ingestion pipeline -/

/-- One analyzer output line, as a character list. -/
abbrev Line := List Char

/-- The end marker of the analyzer output (`if l == "EOS" { break; }`). -/
def eosLine : Line := ['E', 'O', 'S']

/-- `l.find(tab)` followed by taking what follows the first tab: `none` models
the panicking `unwrap` when the line has no tab character. -/
def afterTab : Line → Option Line
  | [] => none
  | c :: rest => if c = '\t' then some rest else afterTab rest

/-- Rust `str::split(',')`: splits at every comma, always yielding at least
one (possibly empty) field. -/
def splitComma : Line → List Line
  | [] => [[]]
  | c :: rest =>
    if c = ',' then [] :: splitComma rest
    else
      match splitComma rest with
      | [] => [[c]]
      | f :: fs => (c :: f) :: fs

/-- Parsing of one analyzer line in `consume_trimmed`: take what follows the
first tab, split it on commas and extract field 6 (the word root);
`none` models the two panicking `unwrap`s (no tab / fewer than 7 fields). -/
def parseLine (l : Line) : Option Line :=
  (afterTab l).bind (fun rest => (splitComma rest).get? 6)

/-- The line loop of `consume_trimmed`: for each analyzer line before the
`EOS` marker, parse the word root (a parse failure aborts, modelling the
panic) and `add_word` it for sentence `sid`. -/
def processLines (store : Store) (sid : Nat) : List Line → Except StoreErr Store
  | [] => Except.ok store
  | l :: rest =>
    match parseLine l with
    | none => Except.error StoreErr.parse
    | some root =>
      match add_word store (String.mk root) sid with
      | Except.error e => Except.error e
      | Except.ok s => processLines s sid rest

/-- `consume_trimmed`: store the sentence, run the external analyzer on it
(the analyzer is the black-box collaborator, passed in as `mecab`, returning
the output lines of `tagger.next()`), and index every word root found before
the `EOS` marker. -/
def consume_trimmed (mecab : String → List Line) (store : Store)
    (trimmed : String) : Except StoreErr Store :=
  let p := add_sentence store trimmed
  processLines p.1 p.2 ((mecab trimmed).takeWhile (fun l => l ≠ eosLine))

/-- The error type of the segmenter iterator's items (src/main.rs
`enum SentenceError`): a UTF-8 decode failure or an I/O read failure. -/
inductive SentenceError
  | utf8
  | ioErr
deriving DecidableEq

/-- `consume_sentences`: one ingestion pass over the segmenter's items.  An
item carrying any `SentenceError` is printed and skipped
(`if sentence.is_err() { println ...; continue; }`); a successful item is
ingested by `consume_trimmed`, whose error aborts the pass via `?`. -/
def consume_sentences (mecab : String → List Line) (store : Store) :
    List (Except SentenceError String) → Except StoreErr Store
  | [] => Except.ok store
  | item :: rest =>
    match item with
    | Except.error _ => consume_sentences mecab store rest
    | Except.ok s =>
      match consume_trimmed mecab store s with
      | Except.error e => Except.error e
      | Except.ok store' => consume_sentences mecab store' rest

/-- The `Add` branch of `main`: the whole pass runs inside one SQLite
transaction (`conn.transaction()` … `tx.commit()`); committing on success
makes the new state visible, while an error propagated by `?` drops the
transaction, which rolls it back, leaving the original state visible.
Returns the visible store and the error, if any. -/
def ginkou_add (mecab : String → List Line) (store : Store)
    (items : List (Except SentenceError String)) : Store × Option StoreErr :=
  match consume_sentences mecab store items with
  | Except.ok s => (s, none)
  | Except.error e => (store, some e)

/-! ## Opening the backing database -/

/-- A backing database file: whether it carries the expected schema, and the
store state it holds.  A pre-existing incompatible file is one with
`hasSchema = false`. -/
structure DbFile where
  hasSchema : Bool
  store : Store
deriving DecidableEq

/-- The fresh database produced by `Connection::open` on a new path followed
by `create_tables`. -/
def freshDb : DbFile := ⟨true, emptyStore⟩

/-- `conn_from_disk`: checks `path.exists()` before opening; if no file
existed, runs `create_tables`, otherwise opens the file as-is with no schema
validation or creation (SQLite's open succeeds on an existing file and defers
schema errors to the first statement).  Returns the connection's database and
whether schema creation ran. -/
def conn_from_disk (disk : String → Option DbFile) (path : String) :
    DbFile × Bool :=
  match disk path with
  | none => (freshDb, true)
  | some f => (f, false)

/-- Running the first store statement over a connection: SQLite raises the
missing-schema error at this point, not at open time. -/
def conn_add_sentence (db : DbFile) (text : String) :
    Except StoreErr (DbFile × Nat) :=
  if db.hasSchema then
    let p := add_sentence db.store text
    Except.ok (⟨true, p.1⟩, p.2)
  else Except.error StoreErr.noSchema

/-! ## Store operation traces (for referential-integrity claims) -/

/-- One store mutation issued by some caller. -/
inductive StoreOp
  | opSentence (text : String)
  | opWord (word : String) (sid : Nat)
deriving DecidableEq

/-- The store resulting from a fallible operation, the original one on
failure. -/
def okOr : Except StoreErr Store → Store → Store
  | Except.ok s, _ => s
  | Except.error _, d => d

/-- Apply one operation to a store (a failed `add_word` leaves the store
unchanged). -/
def applyOp (store : Store) : StoreOp → Store
  | StoreOp.opSentence t => (add_sentence store t).1
  | StoreOp.opWord w sid => okOr (add_word store w sid) store

/-- Apply a whole trace of operations, oldest first. -/
def applyOps (store : Store) (ops : List StoreOp) : Store :=
  ops.foldl applyOp store

/-! ## Helper lemmas about the segmenter -/

/-- A well-formed delimiter-terminated unit: non-empty, and the scanning loop
started in state 0 consumes exactly it, leaving the rest of the stream
untouched (in particular it ends at a recognized delimiter occurrence). -/
def IsUnit (u : List Nat) : Prop :=
  u ≠ [] ∧ ∀ rest : List Nat, scanSentence 0 (u ++ rest) = (u, rest)

theorem scanSentence_no227 (ws : List Nat) (h : ∀ b ∈ ws, b ≠ 227) :
    scanSentence 0 ws = (ws, []) := by
  induction ws with
  | nil => rfl
  | cons b rest ih =>
    have hb : b ≠ 227 := h b (List.mem_cons_self b rest)
    have hmi : nextMi 0 b = 0 := by
      simp [nextMi, dak, DAKUTEN_BYTES, hb]
    simp only [scanSentence, hmi]
    rw [ih (fun x hx => h x (List.mem_cons_of_mem b hx))]
    simp

theorem utf8Decode_ascii (ws : List Nat) (h : ∀ b ∈ ws, b ≤ 0x7F) :
    utf8Decode ws = some ws := by
  induction ws with
  | nil => rfl
  | cons b rest ih =>
    have hb : b ≤ 0x7F := h b (List.mem_cons_self b rest)
    show utf8DecodeFuel (rest.length + 1) (b :: rest) = some (b :: rest)
    simp only [utf8DecodeFuel, utf8DecodeOne, if_pos hb, Option.some_bind]
    rw [show utf8DecodeFuel rest.length rest = utf8Decode rest from rfl,
        ih (fun x hx => h x (List.mem_cons_of_mem b hx))]
    rfl

/-- The ASCII whitespace bytes a trailing segment may consist of. -/
def IsAsciiWs (b : Nat) : Prop :=
  b = 9 ∨ b = 10 ∨ b = 11 ∨ b = 12 ∨ b = 13 ∨ b = 32

theorem segItem_ws (ws : List Nat) (h : ∀ b ∈ ws, IsAsciiWs b) :
    segItem ws = Except.ok [] := by
  have hascii : ∀ b ∈ ws, b ≤ 0x7F := by
    intro b hb
    rcases h b hb with h' | h' | h' | h' | h' | h' <;> omega
  simp only [segItem, utf8Decode_ascii ws hascii]
  congr 1
  rw [List.filter_eq_nil_iff]
  intro b hb
  rcases h b hb with h' | h' | h' | h' | h' | h' <;> subst h' <;> decide

theorem runSentences_ws (ws : List Nat) (h : ∀ b ∈ ws, IsAsciiWs b) :
    runSentences ws = if ws = [] then [] else [Except.ok []] := by
  cases ws with
  | nil => rfl
  | cons b rest =>
    have hne : ∀ x ∈ b :: rest, x ≠ 227 := by
      intro x hx
      rcases h x hx with h' | h' | h' | h' | h' | h' <;> omega
    rw [runSentences_cons, scanSentence_no227 (b :: rest) hne]
    simp only [segItem_ws (b :: rest) h, runSentences_nil]
    rfl

theorem runSentences_unit (u : List Nat) (t : List Nat) (hu : IsUnit u) :
    runSentences (u ++ t) = segItem u :: runSentences t := by
  obtain ⟨hne, hscan⟩ := hu
  cases u with
  | nil => exact absurd rfl hne
  | cons b u' =>
    rw [List.cons_append, runSentences_cons]
    have h2 := hscan t
    rw [List.cons_append] at h2
    rw [h2]

theorem runSentences_units (us : List (List Nat)) (t : List Nat)
    (hu : ∀ u ∈ us, IsUnit u) :
    runSentences (us.flatten ++ t) =
      us.map (fun u => segItem u) ++ runSentences t := by
  induction us with
  | nil => simp
  | cons u us' ih =>
    have h1 : IsUnit u := hu u (List.mem_cons_self u us')
    rw [List.flatten_cons, List.append_assoc, runSentences_unit u _ h1,
        ih (fun x hx => hu x (List.mem_cons_of_mem u hx))]
    rfl

/-! ## Helper lemmas about the store -/

theorem matching_word_empty_of_no_membership (store : Store) (w : String)
    (h : ∀ id, (w, id) ∉ store.memberships) :
    matching_word store w = [] := by
  unfold matching_word
  have : store.sentences.filter (fun p => (w, p.1) ∈ store.memberships) = [] := by
    rw [List.filter_eq_nil_iff]
    intro p _
    simp only [decide_eq_true_eq]
    exact h p.1
  rw [this]
  simp

theorem add_word_ok_fields (store : Store) (w : String) (sid : Nat) (s : Store)
    (h : add_word store w sid = Except.ok s) :
    s.sentences = store.sentences ∧ s.nextId = store.nextId ∧
    (s.memberships = store.memberships ∨
     s.memberships = store.memberships ++ [(w, sid)]) := by
  unfold add_word at h
  split at h
  · injection h with hs
    subst hs
    refine ⟨rfl, rfl, ?_⟩
    dsimp only
    split
    · left; rfl
    · right; rfl
  · cases h

theorem no_membership_applyOp (store : Store) (w : String) (op : StoreOp)
    (hop : ∀ sid, op ≠ StoreOp.opWord w sid)
    (h : ∀ id, (w, id) ∉ store.memberships) :
    ∀ id, (w, id) ∉ (applyOp store op).memberships := by
  intro id
  cases op with
  | opSentence t => exact h id
  | opWord w' sid =>
    have hw' : w' ≠ w := by
      intro hcontra
      exact hop sid (by rw [hcontra])
    show (w, id) ∉ (okOr (add_word store w' sid) store).memberships
    cases hadd : add_word store w' sid with
    | error e => simp only [okOr]; exact h id
    | ok s =>
      simp only [okOr]
      rcases (add_word_ok_fields store w' sid s hadd).2.2 with hm | hm
      · rw [hm]; exact h id
      · rw [hm]
        intro hmem
        rcases List.mem_append.mp hmem with hl | hr
        · exact h id hl
        · simp only [List.mem_singleton, Prod.mk.injEq] at hr
          exact hw' hr.1.symm

/-! ## The claims -/

/-- Claim C1, counterexample: on the stream `"A。 "` (one delimiter occurrence
followed by whitespace-only trailing content, so the claim demands exactly one
item), the iterator yields TWO items — the trailing partial buffer is decoded,
whitespace-stripped to the empty string and emitted as a second successful
item, not discarded: `Sentences::next` returns `None` only when the buffer is
empty, and emits any non-empty buffer even when the stream ended before the
match counter reached 3. -/
theorem trailing_partial_is_emitted :
    runSentences [65, 227, 128, 130, 32] =
      [Except.ok [65, 12290], Except.ok []] ∧
    (runSentences [65, 227, 128, 130, 32]).length ≠ 1 :=
  ⟨rfl, by decide⟩

/-- Claim C1, amended: for a stream made of `n` well-formed delimiter-terminated
units followed by whitespace-only trailing content, the iterator yields the `n`
sentence items and, when the trailing content is non-empty, one extra item: the
trailing partial buffer is emitted (whitespace-stripped to the empty string),
not discarded; only an empty trailing rest produces exactly `n` items. -/
theorem segmenter_unit_count (us : List (List Nat)) (ws : List Nat)
    (hu : ∀ u ∈ us, IsUnit u) (hw : ∀ b ∈ ws, IsAsciiWs b) :
    runSentences (us.flatten ++ ws) =
      us.map (fun u => segItem u) ++
        (if ws = [] then [] else [Except.ok []]) ∧
    (runSentences (us.flatten ++ ws)).length =
      us.length + (if ws = [] then 0 else 1) := by
  have h1 := runSentences_units us ws hu
  have h2 := runSentences_ws ws hw
  rw [h2] at h1
  refine ⟨h1, ?_⟩
  rw [h1]
  by_cases hws : ws = [] <;> simp [hws]

/-- Witness for `segmenter_unit_count`: one unit `"A。"` followed by one
trailing space yields the sentence item and one extra empty item. -/
theorem segmenter_unit_count_witness :
    runSentences ([[65, 227, 128, 130]].flatten ++ [32]) =
      [segItem [65, 227, 128, 130], Except.ok []] := by
  have hu : ∀ u ∈ [[65, 227, 128, 130]], IsUnit u := by
    intro u hu'
    simp only [List.mem_singleton] at hu'
    subst hu'
    exact ⟨by decide, fun rest => rfl⟩
  have hw : ∀ b ∈ [32], IsAsciiWs b := by
    intro b hb
    simp only [List.mem_singleton] at hb
    subst hb
    exact Or.inr (Or.inr (Or.inr (Or.inr (Or.inr rfl))))
  have h := (segmenter_unit_count [[65, 227, 128, 130]] [32] hu hw).1
  rw [h]
  rfl

/-- Claim C6: each incoming byte either advances the partial-match counter or
resets it to zero; a mismatch resets to zero even when the byte is 0xE3 = 227
(the first delimiter byte), so matching restarts from byte 0, never from
byte 1.  Consequently on the stream `E3 E3 80 82 42 E3 80 82`, whose bytes
1..3 are an exact delimiter occurrence preceded by a stray 0xE3, that
occurrence is not recognized: the scanning loop runs past it to the second
occurrence, producing a single buffer spanning the whole stream (whose decode
then fails, yielding a single error item). -/
theorem delimiter_mismatch_resets_to_zero :
    (∀ mi b : Nat, nextMi mi b = 0 ∨ nextMi mi b = mi + 1) ∧
    nextMi 1 227 = 0 ∧
    nextMi 2 227 = 0 ∧
    scanSentence 0 [227, 227, 128, 130, 66, 227, 128, 130] =
      ([227, 227, 128, 130, 66, 227, 128, 130], []) ∧
    runSentences [227, 227, 128, 130, 66, 227, 128, 130] =
      [Except.error ()] := by
  refine ⟨?_, rfl, rfl, rfl, rfl⟩
  intro mi b
  unfold nextMi
  split
  · exact Or.inr rfl
  · exact Or.inl rfl

/-- Claim C7: on the byte streams of `"A。\n  B。\n\n XXC。"` and of
`"A。B。XXC。"`, the segmenter yields exactly the three sentences
`"A。"`, `"B。"`, `"XXC。"` (as code points: `A` = 65, `B` = 66, `X` = 88,
`C` = 67, `。` = 12290), in order, with all whitespace removed and
non-delimiter content preserved — identically for both inputs. -/
theorem segmenter_examples :
    runSentences
        [65, 227, 128, 130, 10, 32, 32, 66, 227, 128, 130, 10, 10, 32,
         88, 88, 67, 227, 128, 130] =
      [Except.ok [65, 12290], Except.ok [66, 12290],
       Except.ok [88, 88, 67, 12290]] ∧
    runSentences
        [65, 227, 128, 130, 66, 227, 128, 130, 88, 88, 67, 227, 128, 130] =
      [Except.ok [65, 12290], Except.ok [66, 12290],
       Except.ok [88, 88, 67, 12290]] :=
  ⟨rfl, rfl⟩

/-- Claim C2, counterexample: decode errors are NOT the only error kind
recovered locally.  An I/O read error surfaced as a segmenter item
(`SentenceError::IO`) arises during the pass and is not a decode error, so by
the claim it should abort the batch; but `consume_sentences` tests only
`sentence.is_err()` and skips it, completing the pass successfully. -/
theorem io_error_item_is_skipped :
    consume_sentences (fun _ => []) emptyStore
        [Except.error SentenceError.ioErr] =
      Except.ok emptyStore :=
  rfl

/-- Claim C2, amended: every segmenter item error — a UTF-8 decode failure or
an I/O read failure alike — is recovered locally (reported and skipped, the
pass continuing with the next unit), while an error from ingesting a unit
(`consume_trimmed`: store or tokenizer-output errors) aborts the enclosing
batch operation. -/
theorem consume_sentences_error_policy (mecab : String → List Line)
    (store : Store) (e : SentenceError) (s : String) (err : StoreErr)
    (rest : List (Except SentenceError String)) :
    consume_sentences mecab store (Except.error e :: rest) =
      consume_sentences mecab store rest ∧
    (consume_trimmed mecab store s = Except.error err →
      consume_sentences mecab store (Except.ok s :: rest) =
        Except.error err) := by
  refine ⟨rfl, ?_⟩
  intro h
  simp only [consume_sentences, h]

/-- Witness for `consume_sentences_error_policy`: a unit whose analyzer output
is the single malformed line `"x"` (no tab) makes `consume_trimmed` fail, and
the failure aborts the pass. -/
theorem consume_sentences_error_policy_witness :
    consume_trimmed (fun _ => [['x']]) emptyStore "x" =
        Except.error StoreErr.parse ∧
    consume_sentences (fun _ => [['x']]) emptyStore [Except.ok "x"] =
      Except.error StoreErr.parse :=
  ⟨rfl,
   (consume_sentences_error_policy (fun _ => [['x']]) emptyStore
      SentenceError.utf8 "x" StoreErr.parse []).2 rfl⟩

/-- Claim C5: the `Add` branch of `main` runs the whole ingestion pass inside
one transaction, committed only on success; with a fatal error the transaction
is dropped and rolled back, so the visible store is unchanged — either the
whole batch is visible afterward (the successful `consume_sentences` result)
or none of it is. -/
theorem ingestion_transactional (mecab : String → List Line) (store : Store)
    (items : List (Except SentenceError String)) :
    ((ginkou_add mecab store items).2 ≠ none →
      (ginkou_add mecab store items).1 = store) ∧
    ((ginkou_add mecab store items).2 = none →
      consume_sentences mecab store items =
        Except.ok (ginkou_add mecab store items).1) := by
  unfold ginkou_add
  cases h : consume_sentences mecab store items with
  | ok s =>
    refine ⟨fun hne => absurd rfl hne, fun _ => rfl⟩
  | error e =>
    refine ⟨fun _ => rfl, fun hnone => ?_⟩
    cases hnone

/-- Witness for `ingestion_transactional`: a pass that fails on a malformed
analyzer line leaves the visible store exactly as it was; after a pass over an
empty stream the (trivial) batch result is visible. -/
theorem ingestion_transactional_witness :
    (ginkou_add (fun _ => [['x']]) emptyStore [Except.ok "x"]).1 =
        emptyStore ∧
    consume_sentences (fun _ => [['x']]) emptyStore [] =
      Except.ok (ginkou_add (fun _ => [['x']]) emptyStore []).1 :=
  ⟨(ingestion_transactional (fun _ => [['x']]) emptyStore
      [Except.ok "x"]).1 (by decide),
   (ingestion_transactional (fun _ => [['x']]) emptyStore []).2 rfl⟩

theorem processLines_error_of_malformed (sid : Nat) (ls : List Line)
    (l : Line) (hl : l ∈ ls) (hbad : parseLine l = none) :
    ∀ store : Store, ∃ e, processLines store sid ls = Except.error e := by
  induction ls with
  | nil => cases hl
  | cons a rest ih =>
    intro store
    rcases List.mem_cons.mp hl with h1 | h2
    · subst h1
      exact ⟨StoreErr.parse, by simp only [processLines, hbad]⟩
    · cases hp : parseLine a with
      | none => exact ⟨StoreErr.parse, by simp only [processLines, hp]⟩
      | some root =>
        cases ha : add_word store (String.mk root) sid with
        | error e => exact ⟨e, by simp only [processLines, hp, ha]⟩
        | ok s =>
          obtain ⟨e, he⟩ := ih h2 s
          exact ⟨e, by simp only [processLines, hp, ha]; exact he⟩

/-- Claim C8: if any analyzer output line before the `EOS` end marker is
malformed — it has no tab character, or fewer than 7 comma-separated fields
after the tab (`parseLine` fails) — then `consume_trimmed` for that sentence
aborts with an error (modelling the source's panicking `unwrap`s); the
malformed line is never skipped. -/
theorem malformed_line_fatal (mecab : String → List Line) (store : Store)
    (t : String) (l : Line)
    (hl : l ∈ (mecab t).takeWhile (fun l => l ≠ eosLine))
    (hbad : parseLine l = none) :
    ∃ e, consume_trimmed mecab store t = Except.error e := by
  unfold consume_trimmed
  exact processLines_error_of_malformed _ _ l hl hbad _

/-- Witness for `malformed_line_fatal`: the analyzer output consisting of the
single tab-less line `"y"` makes ingestion of the sentence fail. -/
theorem malformed_line_fatal_witness :
    ∃ e, consume_trimmed (fun _ => [['y']]) emptyStore "y" =
      Except.error e :=
  malformed_line_fatal (fun _ => [['y']]) emptyStore "y" ['y']
    (by decide) rfl

/-- Claim C3 (the two query modes are modelled from the spec, since the SQL
files are not among the sources): for every store state and word, the
matching-sentences query returns the texts of the sentences related to the
word in ascending sentence-length order; the capped mode returns at most 200
results, and the unrestricted mode returns exactly the matching set (a text is
returned iff some sentence row carries it and is joined to the word). -/
theorem matching_word_spec (store : Store) (w : String) :
    (matching_word store w).Pairwise
      (fun a b : String => a.length ≤ b.length) ∧
    (matching_word_capped store w).length ≤ 200 ∧
    (∀ t : String, t ∈ matching_word store w ↔
      ∃ id, (id, t) ∈ store.sentences ∧ (w, id) ∈ store.memberships) := by
  refine ⟨?_, ?_, ?_⟩
  · have hs := @List.sorted_mergeSort String
      (fun a b : String => a.length ≤ b.length)
      (fun a b c hab hbc => by
        simp only [decide_eq_true_eq] at hab hbc ⊢
        omega)
      (fun a b => by
        simp only [Bool.or_eq_true, decide_eq_true_eq]
        exact Nat.le_total a.length b.length)
      ((store.sentences.filter
          (fun p => (w, p.1) ∈ store.memberships)).map Prod.snd)
    exact hs.imp (fun h => of_decide_eq_true h)
  · exact List.length_take_le 200 (matching_word store w)
  · intro t
    unfold matching_word
    rw [List.mem_mergeSort]
    constructor
    · intro ht
      obtain ⟨p, hp, hpt⟩ := List.mem_map.mp ht
      obtain ⟨hps, hpm⟩ := List.mem_filter.mp hp
      refine ⟨p.1, ?_, of_decide_eq_true hpm⟩
      rw [← hpt]
      exact hps
    · rintro ⟨id, h1, h2⟩
      exact List.mem_map.mpr
        ⟨(id, t), List.mem_filter.mpr ⟨h1, decide_eq_true h2⟩, rfl⟩

theorem filter_id_singleton (l : List (Nat × String)) (sid : Nat) (t : String)
    (hmem : (sid, t) ∈ l) (hnodup : (l.map Prod.fst).Nodup) :
    l.filter (fun p => p.1 = sid) = [(sid, t)] := by
  induction l with
  | nil => cases hmem
  | cons a rest ih =>
    rw [List.map_cons] at hnodup
    have hnd := List.nodup_cons.mp hnodup
    rcases List.mem_cons.mp hmem with h1 | h2
    · subst h1
      rw [List.filter_cons_of_pos (by simp)]
      have : rest.filter (fun p => p.1 = sid) = [] := by
        rw [List.filter_eq_nil_iff]
        intro p hp hpsid
        simp only [decide_eq_true_eq] at hpsid
        exact hnd.1 (hpsid ▸ List.mem_map.mpr ⟨p, hp, rfl⟩)
      rw [this]
    · have ha : a.1 ≠ sid := by
        intro hc
        exact hnd.1 (hc ▸ List.mem_map.mpr ⟨(sid, t), h2, rfl⟩)
      rw [List.filter_cons_of_neg (by simpa using ha)]
      exact ih h2 hnd.2

/-- Claim C4 (the insert statements are modelled from the spec, since the SQL
files are not among the sources): for a word `w` and an existing sentence id
`sid` (carrying text `t`, with sentence ids unique and `w` not yet related to
any sentence), calling `add_word w sid` twice succeeds both times, the second
call changing nothing, and afterwards the query for `w` contains the
sentence's text exactly once. -/
theorem add_word_idempotent (store : Store) (w : String) (sid : Nat)
    (t : String) (hmem : (sid, t) ∈ store.sentences)
    (hnodup : (store.sentences.map Prod.fst).Nodup)
    (hfresh : ∀ id, (w, id) ∉ store.memberships) :
    ∃ s1, add_word store w sid = Except.ok s1 ∧
      add_word s1 w sid = Except.ok s1 ∧
      (matching_word s1 w).count t = 1 := by
  have hex : store.sentences.any (fun p => p.1 = sid) = true :=
    List.any_eq_true.mpr ⟨(sid, t), hmem, by simp⟩
  have hnf : (w, sid) ∉ store.memberships := hfresh sid
  refine ⟨{ store with
      words := if w ∈ store.words then store.words else store.words ++ [w]
      memberships := store.memberships ++ [(w, sid)] }, ?_, ?_, ?_⟩
  · unfold add_word
    rw [if_pos hex, if_neg hnf]
  · unfold add_word
    rw [if_pos hex]
    have hw : w ∈ (if w ∈ store.words then store.words
        else store.words ++ [w]) := by
      split
      · assumption
      · exact List.mem_append.mpr (Or.inr (List.mem_singleton.mpr rfl))
    rw [if_pos hw, if_pos (List.mem_append.mpr
      (Or.inr (List.mem_singleton.mpr rfl)))]
  · unfold matching_word
    have hfilter :
        store.sentences.filter
            (fun p => (w, p.1) ∈ store.memberships ++ [(w, sid)]) =
          store.sentences.filter (fun p => p.1 = sid) := by
      apply List.filter_congr
      intro p _
      simp only [List.mem_append, List.mem_singleton, Prod.mk.injEq,
        decide_eq_decide]
      constructor
      · rintro (hin | h)
        · exact absurd hin (hfresh p.1)
        · exact h.2
      · intro hid
        exact Or.inr ⟨by trivial, hid⟩
    simp only [hfilter, filter_id_singleton store.sentences sid t hmem hnodup]
    simp

/-- Witness for `add_word_idempotent`: a store holding the single sentence
`(0, "t")` and no words. -/
theorem add_word_idempotent_witness :
    ∃ s1, add_word ⟨[(0, "t")], 1, [], []⟩ "w" 0 = Except.ok s1 ∧
      add_word s1 "w" 0 = Except.ok s1 ∧
      (matching_word s1 "w").count "t" = 1 :=
  add_word_idempotent ⟨[(0, "t")], 1, [], []⟩ "w" 0 "t"
    (List.mem_singleton.mpr rfl) (by simp) (by simp)

theorem no_membership_applyOps (w : String) (ops : List StoreOp)
    (hops : ∀ sid, StoreOp.opWord w sid ∉ ops) :
    ∀ store : Store, (∀ id, (w, id) ∉ store.memberships) →
      ∀ id, (w, id) ∉ (applyOps store ops).memberships := by
  induction ops with
  | nil => intro store h id; exact h id
  | cons op rest ih =>
    intro store h id
    have hop : ∀ sid, op ≠ StoreOp.opWord w sid :=
      fun sid hc => hops sid (hc ▸ List.mem_cons_self op rest)
    have hrest : ∀ sid, StoreOp.opWord w sid ∉ rest :=
      fun sid hc => hops sid (List.mem_cons_of_mem op hc)
    show (w, id) ∉ (applyOps (applyOp store op) rest).memberships
    exact ih hrest (applyOp store op)
      (no_membership_applyOp store w op hop h) id

/-- Claim C9 (the lookup query is modelled from the spec, since the SQL files
are not among the sources): on any store state built by any trace of store
operations in which the word `w` was never passed to `add_word`, the
matching-sentences query for `w` returns the empty list — and, being a total
function in the model, it cannot return an error. -/
theorem never_added_word_matches_nothing (ops : List StoreOp) (w : String)
    (hops : ∀ sid, StoreOp.opWord w sid ∉ ops) :
    matching_word (applyOps emptyStore ops) w = [] := by
  apply matching_word_empty_of_no_membership
  exact no_membership_applyOps w ops hops emptyStore
    (fun id h => by simp [emptyStore] at h)

/-- Witness for `never_added_word_matches_nothing`: after only inserting the
sentence `"x"`, the query for the never-added word `"y"` is empty. -/
theorem never_added_word_matches_nothing_witness :
    matching_word (applyOps emptyStore [StoreOp.opSentence "x"]) "y" = [] :=
  never_added_word_matches_nothing [StoreOp.opSentence "x"] "y"
    (fun sid => by simp)

/-- Claim C10 (SQLite's open-time behaviour is modelled from the library
contract: opening defers schema errors to the first statement): schema
creation runs if and only if no file existed at the path; an existing file is
opened as-is, successfully and unchanged, with no schema validation or
creation, and a file lacking the expected schema produces its error only at
the first subsequent store operation. -/
theorem conn_from_disk_spec (disk : String → Option DbFile) (path : String) :
    ((conn_from_disk disk path).2 = true ↔ disk path = none) ∧
    (∀ f, disk path = some f → conn_from_disk disk path = (f, false)) ∧
    (disk path = none → conn_from_disk disk path = (freshDb, true)) ∧
    (∀ f t, disk path = some f → f.hasSchema = false →
      conn_add_sentence (conn_from_disk disk path).1 t =
        Except.error StoreErr.noSchema) := by
  cases hd : disk path with
  | none =>
    refine ⟨by simp [conn_from_disk, hd], ?_,
      fun _ => by simp [conn_from_disk, hd], ?_⟩
    · intro f hf
      cases hf
    · intro f t hf
      cases hf
  | some f0 =>
    have hc : conn_from_disk disk path = (f0, false) := by
      simp [conn_from_disk, hd]
    refine ⟨by simp [hc], ?_, ?_, ?_⟩
    · intro f hf
      injection hf with hf
      rw [hc, hf]
    · intro hf
      cases hf
    · intro f t hf hschema
      injection hf with hf
      subst hf
      rw [hc]
      unfold conn_add_sentence
      rw [if_neg (by rw [hschema]; exact Bool.false_ne_true)]

/-- Witness for `conn_from_disk_spec`: a disk holding, at every path, a file
without the expected schema; opening succeeds and the first insert fails. -/
theorem conn_from_disk_spec_witness :
    conn_from_disk (fun _ => some ⟨false, emptyStore⟩) "p" =
        (⟨false, emptyStore⟩, false) ∧
    conn_add_sentence
        (conn_from_disk (fun _ => some ⟨false, emptyStore⟩) "p").1 "s" =
      Except.error StoreErr.noSchema :=
  ⟨(conn_from_disk_spec (fun _ => some ⟨false, emptyStore⟩) "p").2.1
      ⟨false, emptyStore⟩ rfl,
   (conn_from_disk_spec (fun _ => some ⟨false, emptyStore⟩) "p").2.2.2
      ⟨false, emptyStore⟩ "s" rfl rfl⟩

end Ginkou
